import Mathlib

/-!
Verification development for the `cic_checkincb` checkins RAG pipeline.

Python strings are embedded as lists of Unicode code points (`List Nat`),
matching Python's view of a `str` as a sequence of code points (`len`,
indexing, substring tests all operate on code points).  Python floats that
only feed ordering decisions are embedded as rationals (`ℚ`); the external
cosine-similarity computation is a function parameter.  Fallible code
returns `Option`/`Except`.
-/

namespace CheckinRag

/-- Code points of a Lean string literal, used to write concrete Python
string values. -/
def strCodes (s : String) : List Nat := s.data.map Char.toNat

/-- Python `str.lower` restricted to ASCII case folding (the month names and
all concrete inputs in this development are ASCII). -/
def lowerCode (c : Nat) : Nat := if 65 ≤ c ∧ c ≤ 90 then c + 32 else c

/-- Lowercase an embedded string, code point by code point. -/
def lowerStr (s : List Nat) : List Nat := s.map lowerCode

/-- Python `needle in haystack` substring test on strings. -/
def hasSubstr : List Nat → List Nat → Bool
  | [], needle => needle.isEmpty
  | c :: rest, needle => needle.isPrefixOf (c :: rest) || hasSubstr rest needle

/-- ASCII decimal digit test (`\d` over the ASCII inputs of this program). -/
def isDigitCode (c : Nat) : Bool := 48 ≤ c && c ≤ 57

/-- Numeric value of a list of ASCII digit code points. -/
def digitsVal (l : List Nat) : Nat := l.foldl (fun acc c => acc * 10 + (c - 48)) 0

/-! ## SHA-256 (`hashlib.sha256(...).hexdigest()`)

A direct executable implementation over byte lists, with 32-bit words
represented as `Nat` reduced modulo `2 ^ 32`. -/

/-- 32-bit truncation. -/
def w32 (n : Nat) : Nat := n % 4294967296

/-- Right rotation of a 32-bit word. -/
def rotr (n x : Nat) : Nat := w32 (x / 2 ^ n + x % 2 ^ n * 2 ^ (32 - n))

/-- SHA-256 small sigma 0. -/
def ssig0 (x : Nat) : Nat := Nat.xor (Nat.xor (rotr 7 x) (rotr 18 x)) (x / 2 ^ 3)

/-- SHA-256 small sigma 1. -/
def ssig1 (x : Nat) : Nat := Nat.xor (Nat.xor (rotr 17 x) (rotr 19 x)) (x / 2 ^ 10)

/-- SHA-256 big sigma 0. -/
def bsig0 (x : Nat) : Nat := Nat.xor (Nat.xor (rotr 2 x) (rotr 13 x)) (rotr 22 x)

/-- SHA-256 big sigma 1. -/
def bsig1 (x : Nat) : Nat := Nat.xor (Nat.xor (rotr 6 x) (rotr 11 x)) (rotr 25 x)

/-- SHA-256 choose function. -/
def shaCh (x y z : Nat) : Nat := Nat.xor (Nat.land x y) (Nat.land (Nat.xor x 4294967295) z)

/-- SHA-256 majority function. -/
def shaMaj (x y z : Nat) : Nat :=
  Nat.xor (Nat.xor (Nat.land x y) (Nat.land x z)) (Nat.land y z)

/-- The 64 SHA-256 round constants, written in decimal. -/
def shaK : List Nat :=
  [1116352408, 1899447441, 3049323471, 3921009573,
   961987163, 1508970993, 2453635748, 2870763221,
   3624381080, 310598401, 607225278, 1426881987,
   1925078388, 2162078206, 2614888103, 3248222580,
   3835390401, 4022224774, 264347078, 604807628,
   770255983, 1249150122, 1555081692, 1996064986,
   2554220882, 2821834349, 2952996808, 3210313671,
   3336571891, 3584528711, 113926993, 338241895,
   666307205, 773529912, 1294757372, 1396182291,
   1695183700, 1986661051, 2177026350, 2456956037,
   2730485921, 2820302411, 3259730800, 3345764771,
   3516065817, 3600352804, 4094571909, 275423344,
   430227734, 506948616, 659060556, 883997877,
   958139571, 1322822218, 1537002063, 1747873779,
   1955562222, 2024104815, 2227730452, 2361852424,
   2428436474, 2756734187, 3204031479, 3329325298]

/-- Running hash state: the eight 32-bit words `H0`–`H7`. -/
structure ShaState where
  s0 : Nat
  s1 : Nat
  s2 : Nat
  s3 : Nat
  s4 : Nat
  s5 : Nat
  s6 : Nat
  s7 : Nat

/-- Initial SHA-256 hash state, in decimal. -/
def shaInit : ShaState :=
  ⟨1779033703, 3144134277, 1013904242, 2773480762,
   1359893119, 2600822924, 528734635, 1541459225⟩

/-- Big-endian 32-bit words from a 64-byte block. -/
def blockWords : List Nat → List Nat
  | a :: b :: c :: d :: rest => (((a * 256 + b) * 256 + c) * 256 + d) :: blockWords rest
  | _ => []

/-- One message-schedule extension step appended to the word list. -/
def extendStep (ws : List Nat) : List Nat :=
  let n := ws.length
  ws ++ [w32 (ssig1 (ws.getD (n - 2) 0) + ws.getD (n - 7) 0 +
              ssig0 (ws.getD (n - 15) 0) + ws.getD (n - 16) 0)]

/-- Message schedule: the 16 block words extended to 64. -/
def schedule (block : List Nat) : List Nat :=
  Nat.rec (blockWords block) (fun _ acc => extendStep acc) 48

/-- One SHA-256 compression round on the working registers. -/
def shaRound (st : ShaState) (kw : Nat × Nat) : ShaState :=
  let t1 := w32 (st.s7 + bsig1 st.s4 + shaCh st.s4 st.s5 st.s6 + kw.1 + kw.2)
  let t2 := w32 (bsig0 st.s0 + shaMaj st.s0 st.s1 st.s2)
  ⟨w32 (t1 + t2), st.s0, st.s1, st.s2, w32 (st.s3 + t1), st.s4, st.s5, st.s6⟩

/-- Compress one 64-byte block into the running hash state. -/
def compress (h : ShaState) (block : List Nat) : ShaState :=
  let f := (shaK.zip (schedule block)).foldl shaRound h
  ⟨w32 (h.s0 + f.s0), w32 (h.s1 + f.s1), w32 (h.s2 + f.s2), w32 (h.s3 + f.s3),
   w32 (h.s4 + f.s4), w32 (h.s5 + f.s5), w32 (h.s6 + f.s6), w32 (h.s7 + f.s7)⟩

/-- SHA-256 padding: `0x80`, zeros to 56 mod 64, then the 64-bit bit length. -/
def shaPad (msg : List Nat) : List Nat :=
  let len := msg.length
  let zeros := (119 - len % 64) % 64
  let bits := 8 * len
  msg ++ [128] ++ List.replicate zeros 0 ++
    [bits / 2 ^ 56 % 256, bits / 2 ^ 48 % 256, bits / 2 ^ 40 % 256, bits / 2 ^ 32 % 256,
     bits / 2 ^ 24 % 256, bits / 2 ^ 16 % 256, bits / 2 ^ 8 % 256, bits % 256]

/-- Split a padded message into 64-byte blocks. -/
def toBlocks (l : List Nat) : List (List Nat) :=
  if l.isEmpty then [] else l.take 64 :: toBlocks (l.drop 64)
termination_by l.length
decreasing_by
  simp only [List.length_drop]
  cases l with
  | nil => simp_all
  | cons a t => simp; omega

/-- Big-endian bytes of a 32-bit word. -/
def wordBytes (x : Nat) : List Nat :=
  [x / 2 ^ 24 % 256, x / 2 ^ 16 % 256, x / 2 ^ 8 % 256, x % 256]

/-- SHA-256 digest of a byte list: 32 bytes. -/
def sha256Bytes (msg : List Nat) : List Nat :=
  let f := (toBlocks (shaPad msg)).foldl compress shaInit
  wordBytes f.s0 ++ wordBytes f.s1 ++ wordBytes f.s2 ++ wordBytes f.s3 ++
    wordBytes f.s4 ++ wordBytes f.s5 ++ wordBytes f.s6 ++ wordBytes f.s7

/-- Lowercase hex digit code point for a nibble. -/
def hexDigitCode (n : Nat) : Nat := if n % 16 < 10 then 48 + n % 16 else 87 + n % 16

/-- Two lowercase hex digit code points of one byte. -/
def byteHex (b : Nat) : List Nat := [hexDigitCode (b / 16), hexDigitCode b]

/-- `hashlib.sha256(bytes).hexdigest()` as code points. -/
def sha256Hex (msg : List Nat) : List Nat := (sha256Bytes msg).map byteHex |>.flatten

/-- UTF-8 encoding of one code point. -/
def utf8Char (n : Nat) : List Nat :=
  if n < 128 then [n]
  else if n < 2048 then [192 + n / 64, 128 + n % 64]
  else if n < 65536 then [224 + n / 4096, 128 + n / 64 % 64, 128 + n % 64]
  else [240 + n / 262144, 128 + n / 4096 % 64, 128 + n / 64 % 64, 128 + n % 64]

/-- Python `text.encode("utf-8")`. -/
def utf8Encode (s : List Nat) : List Nat := (s.map utf8Char).flatten

/-- `safe_id` (data_handling.py:15-24).  `text.encode("ascii", "ignore")`
keeps exactly the code points below 128; the decoded result differs from
`text` iff some code point was dropped. -/
def safe_id (text : List Nat) : List Nat :=
  let ascii_text := text.filter (fun c => c < 128)
  if 512 < ascii_text.length ∨ ascii_text ≠ text then sha256Hex (utf8Encode text)
  else ascii_text

/-! ## Query planner (`extract_date_from_question`, rag.py:14-37) -/

/-- The twelve month names scanned by the planner, capitalized as in the
source. -/
def monthNames : List (List Nat) :=
  [strCodes "January", strCodes "February", strCodes "March", strCodes "April",
   strCodes "May", strCodes "June", strCodes "July", strCodes "August",
   strCodes "September", strCodes "October", strCodes "November", strCodes "December"]

/-- The month-name loop: first `m` with `m.lower() in question.lower()`. -/
def findMonth (q : List Nat) : Option (List Nat) :=
  monthNames.find? (fun m => hasSubstr (lowerStr q) (lowerStr m))

/-- Does `re.search(r"(20\d{2})", ...)` match at the head of the list? -/
def yearAt : List Nat → Option (List Nat)
  | a :: b :: c :: d :: _ =>
    if a == 50 && b == 48 && isDigitCode c && isDigitCode d then some [a, b, c, d] else none
  | _ => none

/-- Leftmost `20\d\d` match in the question. -/
def findYear : List Nat → Option (List Nat)
  | [] => none
  | c :: rest =>
    match yearAt (c :: rest) with
    | some y => some y
    | none => findYear rest

/-- Exactly `k` leading ASCII digits, as a value plus the remaining input. -/
def takeDigits (k : Nat) (l : List Nat) : Option (Nat × List Nat) :=
  let ds := l.take k
  if ds.length == k && ds.all isDigitCode then some (digitsVal ds, l.drop k) else none

/-- A slash or dash separator code point. -/
def isSepCode (c : Nat) : Bool := c == 47 || c == 45

/-- One backtracking alternative of the date regex (one-or-two-digit month,
slash-or-dash separator, one-or-two-digit day, separator, four-digit year)
with fixed digit counts for month and day; yields `(m, d, y, sep1, sep2)`. -/
def tryMD (ml dl : Nat) (l : List Nat) : Option (Nat × Nat × Nat × Nat × Nat) :=
  match takeDigits ml l with
  | none => none
  | some (m, r1) =>
    match r1 with
    | [] => none
    | s1 :: r2 =>
      if isSepCode s1 then
        match takeDigits dl r2 with
        | none => none
        | some (d, r3) =>
          match r3 with
          | [] => none
          | s2 :: r4 =>
            if isSepCode s2 then
              match takeDigits 4 r4 with
              | none => none
              | some (y, _) => some (m, d, y, s1, s2)
            else none
      else none

/-- Greedy match of the date regex at one position: two-digit fields are
tried before one-digit fields, month before day. -/
def matchDateFrom (l : List Nat) : Option (Nat × Nat × Nat × Nat × Nat) :=
  match tryMD 2 2 l with
  | some r => some r
  | none =>
    match tryMD 2 1 l with
    | some r => some r
    | none =>
      match tryMD 1 2 l with
      | some r => some r
      | none => tryMD 1 1 l

/-- Leftmost match of the `MM/DD/YYYY` regex in the question. -/
def findDate : List Nat → Option (Nat × Nat × Nat × Nat × Nat)
  | [] => none
  | c :: rest =>
    match matchDateFrom (c :: rest) with
    | some r => some r
    | none => findDate rest

/-- Gregorian leap-year rule used by `datetime`. -/
def isLeap (y : Nat) : Bool := (y % 4 == 0 && y % 100 != 0) || y % 400 == 0

/-- Days in a month, per `datetime` validation. -/
def daysInMonth (y m : Nat) : Nat :=
  if m == 2 then (if isLeap y then 29 else 28)
  else if m == 4 || m == 6 || m == 9 || m == 11 then 30
  else 31

/-- `datetime(y, m, d)` constructor range checks. -/
def validYMD (y m d : Nat) : Bool :=
  1 ≤ y && y ≤ 9999 && 1 ≤ m && m ≤ 12 && 1 ≤ d && d ≤ daysInMonth y m

/-- Decimal repr of a natural number, as code points. -/
def natToStr (n : Nat) : List Nat := (Nat.toDigits 10 n).map Char.toNat

/-- Day of month rendered by `%d`: zero-padded to two digits. -/
def pad2 (d : Nat) : List Nat := if d < 10 then [48, 48 + d] else natToStr d

/-- `strftime("%B %d, %Y")` on a date. -/
def strfBDY (y m d : Nat) : List Nat :=
  monthNames.getD (m - 1) [] ++ [32] ++ pad2 d ++ [44, 32] ++ natToStr y

/-- `extract_date_from_question` (rag.py:14-37): first the month-name loop,
then the `20\d\d` year regex, then the `MM/DD/YYYY` regex reformatted via
`strptime`/`strftime` (which requires `/` separators and a valid date;
failures fall through to `None`). -/
def extract_date_from_question (q : List Nat) : Option (List Nat) :=
  match findMonth q with
  | some m => some m
  | none =>
    match findYear q with
    | some y => some y
    | none =>
      match findDate q with
      | some (m, d, y, s1, s2) =>
        if s1 == 47 && s2 == 47 && validYMD y m d then some (strfBDY y m d) else none
      | none => none

/-! ## Timestamp formatting (`_format_timestamp`, data_handling.py:71-79)

`datetime.fromisoformat` is modelled by `fromisoModel`, accepting
`YYYY-MM-DD` optionally followed by a one-character separator and a time
`HH[:MM[:SS[.fff[fff]]]]`, with `datetime` range validation. -/

/-- Time-of-day tail accepted by `fromisoformat`. -/
def timePartOk : List Nat → Bool
  | [h1, h2] => isDigitCode h1 && isDigitCode h2 && digitsVal [h1, h2] < 24
  | [h1, h2, 58, m1, m2] =>
    [h1, h2, m1, m2].all isDigitCode && digitsVal [h1, h2] < 24 && digitsVal [m1, m2] < 60
  | [h1, h2, 58, m1, m2, 58, s1, s2] =>
    [h1, h2, m1, m2, s1, s2].all isDigitCode && digitsVal [h1, h2] < 24 &&
      digitsVal [m1, m2] < 60 && digitsVal [s1, s2] < 60
  | h1 :: h2 :: 58 :: m1 :: m2 :: 58 :: s1 :: s2 :: 46 :: frac =>
    [h1, h2, m1, m2, s1, s2].all isDigitCode && digitsVal [h1, h2] < 24 &&
      digitsVal [m1, m2] < 60 && digitsVal [s1, s2] < 60 &&
      (frac.length == 3 || frac.length == 6) && frac.all isDigitCode
  | _ => false

/-- `datetime.fromisoformat` model: the date fields when the string parses. -/
def fromisoModel (s : List Nat) : Option (Nat × Nat × Nat) :=
  match s with
  | y1 :: y2 :: y3 :: y4 :: c1 :: m1 :: m2 :: c2 :: d1 :: d2 :: rest =>
    if [y1, y2, y3, y4, m1, m2, d1, d2].all isDigitCode && c1 == 45 && c2 == 45 then
      let y := digitsVal [y1, y2, y3, y4]
      let m := digitsVal [m1, m2]
      let d := digitsVal [d1, d2]
      if validYMD y m d &&
          (match rest with
           | [] => true
           | _ :: t => timePartOk t) then
        some (y, m, d)
      else none
    else none
  | _ => none

/-- `_format_timestamp` (data_handling.py:71-79): empty stays empty; the
raw value has `"Z"` removed and `"T"` turned into a space, is parsed as an
ISO timestamp, and is rendered as `%B %d, %Y`; parse failures return the
raw value. -/
def formatTimestamp (raw : List Nat) : List Nat :=
  if raw.isEmpty then raw
  else
    let s := (raw.filter (fun c => c ≠ 90)).map (fun c => if c = 84 then 32 else c)
    match fromisoModel s with
    | some (y, m, d) => strfBDY y m d
    | none => raw

/-! ## Ingestion (`upsert_checkins_to_pinecone_http`, data_handling.py:140-192)

The Pinecone index is modelled as a list of stored entries; an upsert
replaces the entry with the same id in place, else appends.  The embedder
is an opaque function parameter (one vector per input text).  Both upsert
variants (gRPC, data_handling.py:86-137, and HTTP) build the same per-record
canonical text, id and metadata; the HTTP variant is embedded. -/

/-- A raw checkin record: a JSON object whose `timestamp` and `checkin`
keys may be absent (`c.get(..., "")` supplies `""`). -/
structure Checkin where
  timestamp : Option (List Nat)
  checkin : Option (List Nat)
deriving DecidableEq

/-- `c.get("timestamp", "")`. -/
def tsOf (c : Checkin) : List Nat := c.timestamp.getD []

/-- `c.get("checkin", "")`. -/
def textOf (c : Checkin) : List Nat := c.checkin.getD []

/-- The canonical `full_text = f"{formatted_ts}: {checkin_text}"` built at
data_handling.py:105/120 (gRPC) and data_handling.py:159/174 (HTTP). -/
def canonicalText (c : Checkin) : List Nat :=
  formatTimestamp (tsOf c) ++ strCodes ": " ++ textOf c

/-- Python `s.split(" ")`: split at every single space, keeping empties. -/
def splitSpace : List Nat → List (List Nat)
  | [] => [[]]
  | c :: rest =>
    let r := splitSpace rest
    if c = 32 then [] :: r else (c :: r.headD []) :: r.tail

/-- Stored metadata of one vector (data_handling.py:180-186). -/
structure CheckinMeta where
  checkin : List Nat
  timestamp : List Nat
  month : List Nat
  year : List Nat
  full : List Nat
deriving DecidableEq

/-- One `(id, values, metadata)` triple stored in the index. -/
structure IndexEntry where
  id : List Nat
  values : List ℚ
  metadata : CheckinMeta
deriving DecidableEq

/-- The batch element built for one record (data_handling.py:172-187). -/
def entryOf (c : Checkin) (v : List ℚ) : IndexEntry :=
  let fts := formatTimestamp (tsOf c)
  let full := canonicalText c
  { id := safe_id full
    values := v
    metadata :=
      { checkin := textOf c
        timestamp := fts
        month := if fts.isEmpty then [] else (splitSpace fts).headD []
        year := if fts.isEmpty then [] else (splitSpace fts).getLastD []
        full := full } }

/-- Replace a stored entry by `e` when the ids agree. -/
def overwriteWith (e x : IndexEntry) : IndexEntry := if x.id = e.id then e else x

/-- Index upsert of one entry: overwrite in place by id, else append. -/
def upsertOne (s : List IndexEntry) (e : IndexEntry) : List IndexEntry :=
  if s.any fun x => decide (x.id = e.id) then s.map (overwriteWith e)
  else s ++ [e]

/-- Upsert a sequence of entries in order. -/
def applyAll (s : List IndexEntry) (es : List IndexEntry) : List IndexEntry :=
  es.foldl upsertOne s

/-- `range(0, len(l), bs)` batching into consecutive chunks.  (Python
raises `ValueError` on step 0; the claims use the default batch size 50.) -/
def chunkList (bs : Nat) (l : List α) : List (List α) :=
  if bs == 0 || l.isEmpty then [] else l.take bs :: chunkList bs (l.drop bs)
termination_by l.length
decreasing_by
  simp only [Bool.or_eq_true, beq_iff_eq, List.isEmpty_iff, not_or, Bool.not_eq_true] at *
  simp only [List.length_drop]
  cases l with
  | nil => simp_all
  | cons a t => simp_all; omega

/-- The batch loop (data_handling.py:168-190): upsert each batch and add
its length to the running `total`. -/
def runChunks : List IndexEntry → Nat → List (List IndexEntry) → List IndexEntry × Nat
  | s, t, [] => (s, t)
  | s, t, b :: rest => runChunks (applyAll s b) (t + b.length) rest

/-- Texts to embed and the per-record entries (data_handling.py:155-163
and 169-187): one entry per `(vector, record)` pair, in order. -/
def ingestEntries (embed : List (List Nat) → List (List ℚ)) (checkins : List Checkin) :
    List IndexEntry :=
  ((embed (checkins.map textOf)).zip checkins).map fun p => entryOf p.2 p.1

/-- `upsert_checkins_to_pinecone_http` (data_handling.py:140-192), acting
on a starting store; returns the new store and the `upserted` count. -/
def upsert_checkins_to_pinecone_http (embed : List (List Nat) → List (List ℚ))
    (checkins : List Checkin) (batchSize : Nat) (store : List IndexEntry) :
    List IndexEntry × Nat :=
  if checkins.isEmpty then (store, 0)
  else runChunks store 0 (chunkList batchSize (ingestEntries embed checkins))

/-! ## Context assembler (`build_context_from_query`, rag.py:46-73)

Cosine similarity over floats is an opaque function parameter `sim`; the
loop only calls it when the match carries a non-empty `values` vector and a
query embedding is present, and otherwise scores `0`. -/

/-- One raw match of the Pinecone response: the fields the assembler reads
(`id`, `values`, and the metadata keys), each possibly absent. -/
structure RespMatch where
  id : Option (List Nat)
  metaCheckin : Option (List Nat)
  metaText : Option (List Nat)
  metaTimestamp : Option (List Nat)
  metaFull : Option (List Nat)
  values : Option (List ℚ)
deriving DecidableEq

/-- The raw response: the `"matches"` and `"results"` keys probed at
rag.py:47 (`matches` is a Lean keyword, hence the field names). -/
structure PineconeResp where
  matchList : Option (List RespMatch)
  resultList : Option (List RespMatch)
deriving DecidableEq

/-- Python `a or b` on optional strings: falsy (`None` or `""`) falls
through. -/
def pyOrStr (a b : Option (List Nat)) : Option (List Nat) :=
  match a with
  | some s => if s.isEmpty then b else some s
  | none => b

/-- Python `a or b` on optional match lists. -/
def pyOrList (a b : Option (List RespMatch)) : Option (List RespMatch) :=
  match a with
  | some l => if l.isEmpty then b else some l
  | none => b

/-- f-string rendering of a possibly-`None` string. -/
def fstrOpt (o : Option (List Nat)) : List Nat :=
  match o with
  | some s => s
  | none => strCodes "None"

/-- rag.py:56: `meta.get("checkin") or metadata.get("text") or h.get("id")`. -/
def displayOf (h : RespMatch) : Option (List Nat) :=
  pyOrStr h.metaCheckin (pyOrStr h.metaText h.id)

/-- rag.py:61/65: cosine score, or `0` when the match has no (non-empty)
vector or no query embedding is available. -/
def scoreOf (sim : List ℚ → List ℚ → ℚ) (qEmb : Option (List ℚ)) (h : RespMatch) : ℚ :=
  match h.values, qEmb with
  | some e, some q => if e.isEmpty then 0 else sim q e
  | _, _ => 0

/-- `f"[{timestamp}] {checkin}"`. -/
def bracketLine (ts txt : List Nat) : List Nat := [91] ++ ts ++ [93, 32] ++ txt

/-- Loop body of rag.py:54-69 for one match: the `(score, line)` pair this
match contributes, if any. -/
def entryOfMatch (sim : List ℚ → List ℚ → ℚ) (dateFilter : Option (List Nat))
    (qEmb : Option (List ℚ)) (h : RespMatch) : Option (ℚ × List Nat) :=
  let checkin := displayOf h
  let timestamp := h.metaTimestamp.getD []
  match dateFilter with
  | some df =>
    if hasSubstr timestamp df then
      some (scoreOf sim qEmb h, bracketLine timestamp (fstrOpt checkin))
    else none
  | none =>
    match checkin with
    | some s =>
      if s.isEmpty then none
      else if timestamp.isEmpty then some (scoreOf sim qEmb h, s)
      else some (scoreOf sim qEmb h, bracketLine timestamp s)
    | none => none

/-- Python `<` on a pair of a float score and a line string, as compared by
`list.sort` on `(score, line)` tuples: lexicographic, strings by code
point, a proper prefix preceding its extensions. -/
def listLtCodes : List Nat → List Nat → Bool
  | [], [] => false
  | [], _ :: _ => true
  | _ :: _, [] => false
  | a :: as, b :: bs => decide (a < b) || (a == b && listLtCodes as bs)

/-- Tuple `<` of `(score, line)` pairs. -/
def pairLt (x y : ℚ × List Nat) : Bool :=
  decide (x.1 < y.1) || (decide (x.1 = y.1) && listLtCodes x.2 y.2)

/-- Insert into a descending-sorted list, after every element not tuple-less
than the inserted one (the placement a stable descending sort gives an
element relative to the already-sorted later elements). -/
def insertDesc (x : ℚ × List Nat) : List (ℚ × List Nat) → List (ℚ × List Nat)
  | [] => [x]
  | y :: ys => if pairLt x y then y :: insertDesc x ys else x :: y :: ys

/-- `reranked.sort(reverse=True)` (rag.py:71): stable descending sort by
the `(score, line)` tuple order. -/
def sortDesc : List (ℚ × List Nat) → List (ℚ × List Nat)
  | [] => []
  | x :: xs => insertDesc x (sortDesc xs)

/-- `sep.join(parts)`. -/
def joinSep (sep : List Nat) : List (List Nat) → List Nat
  | [] => []
  | [x] => x
  | x :: y :: rest => x ++ sep ++ joinSep sep (y :: rest)

/-- The sorted `(score, line)` list assembled at rag.py:48-71. -/
def rerankedOf (resp : PineconeResp) (question : Option (List Nat))
    (qEmb : Option (List ℚ)) (sim : List ℚ → List ℚ → ℚ) : List (ℚ × List Nat) :=
  let hits := (pyOrList resp.matchList resp.resultList).getD []
  let rawFilter :=
    match question with
    | some q => if q.isEmpty then none else extract_date_from_question q
    | none => none
  let df :=
    match rawFilter with
    | some s => if s.isEmpty then none else some s
    | none => none
  sortDesc (hits.filterMap (entryOfMatch sim df qEmb))

/-- `build_context_from_query` (rag.py:46-73). -/
def build_context_from_query (resp : PineconeResp) (question : Option (List Nat))
    (qEmb : Option (List ℚ)) (sim : List ℚ → List ℚ → ℚ) : List Nat :=
  joinSep (strCodes "\n---\n") ((rerankedOf resp question qEmb sim).map fun p => p.2)

/-! ## Python call binding and `rag_answer` (rag.py:113-131)

CPython's argument binding for plain positional-or-keyword signatures:
positional arguments fill parameters left to right; a keyword naming a
positionally-filled parameter raises `TypeError: multiple values`, an
unknown keyword raises `TypeError: unexpected keyword argument`, and an
unfilled parameter without a default raises `TypeError: missing argument`.
A raised binding error means the callee body never runs. -/

/-- One parameter of a Python signature. -/
structure PyParam where
  name : String
  hasDefault : Bool

/-- The `TypeError`s argument binding can raise. -/
inductive CallError where
  | tooManyPositional
  | multipleValues (p : String)
  | unexpectedKeyword (k : String)
  | missingArgument (p : String)
deriving DecidableEq

/-- First keyword-argument error, scanning keywords in call order. -/
def kwErrors : List PyParam → Nat → List String → Option CallError
  | _, _, [] => none
  | ps, npos, k :: ks =>
    match ps.findIdx? (fun p => p.name == k) with
    | none => some (.unexpectedKeyword k)
    | some i => if i < npos then some (.multipleValues k) else kwErrors ps npos ks

/-- First required parameter left unbound. -/
def missingErr (ps : List PyParam) (npos : Nat) (kws : List String) : Option CallError :=
  match ps.enum.find? (fun ip =>
      decide (npos ≤ ip.1) && !ip.2.hasDefault && !(kws.contains ip.2.name)) with
  | some ip => some (.missingArgument ip.2.name)
  | none => none

/-- Bind a call with `npos` positional arguments and keywords `kws` against
a signature. -/
def bindCall (ps : List PyParam) (npos : Nat) (kws : List String) : Except CallError Unit :=
  if ps.length < npos then .error .tooManyPositional
  else
    match kwErrors ps npos kws with
    | some e => .error e
    | none =>
      match missingErr ps npos kws with
      | some e => .error e
      | none => .ok ()

/-- Signature of `_openai_embeddings(texts, openai_api_key)`
(data_handling.py:54). -/
def embeddingsParams : List PyParam := [⟨"texts", false⟩, ⟨"openai_api_key", false⟩]

/-- Signature of `query_pinecone_by_vector(vector, topK=5,
pinecone_api_url=None, pinecone_api_key=None, grpc_api_key=None,
index_host=None, namespace="", include_values=False,
include_metadata=True, filter=None)` (data_handling.py:195-206). -/
def queryParams : List PyParam :=
  [⟨"vector", false⟩, ⟨"topK", true⟩, ⟨"pinecone_api_url", true⟩,
   ⟨"pinecone_api_key", true⟩, ⟨"grpc_api_key", true⟩, ⟨"index_host", true⟩,
   ⟨"namespace", true⟩, ⟨"include_values", true⟩, ⟨"include_metadata", true⟩,
   ⟨"filter", true⟩]

/-- rag.py:125-127: a query embedding longer than `embedding_dim` is
silently cut down to the first `embedding_dim` entries; anything else
passes through unchanged. -/
def trimEmbedding (qEmb : List ℚ) (dim : Nat) : List ℚ :=
  if dim < qEmb.length then qEmb.take dim else qEmb

/-- Which collaborator bodies actually ran during `rag_answer`. -/
structure RagTrace where
  embedBodyRun : Bool
  queryBodyRun : Bool
  generateBodyRun : Bool
deriving DecidableEq

/-- `rag_answer` (rag.py:113-131) over opaque collaborators, with CPython
call binding applied to its two call sites that pass keywords: rag.py:124
calls `_openai_embeddings` with 2 positional arguments plus the keyword
`model`, and rag.py:128 calls `query_pinecone_by_vector` with 3 positional
arguments plus the keyword `topK`.  Returns the outcome (the answer and
context on success) and the trace of collaborator bodies reached. -/
def rag_answer (question : List Nat) (embeddingDim : Nat)
    (embed : List (List Nat) → List (List ℚ))
    (query : List ℚ → PineconeResp)
    (generate : List Nat → List Nat → List Nat)
    (sim : List ℚ → List ℚ → ℚ) :
    Except CallError (List Nat × List Nat) × RagTrace :=
  match bindCall embeddingsParams 2 ["model"] with
  | .error e => (.error e, ⟨false, false, false⟩)
  | .ok _ =>
    let e1 := (embed [question]).getD 0 []
    let qEmb := trimEmbedding e1 embeddingDim
    match bindCall queryParams 3 ["topK"] with
    | .error e => (.error e, ⟨true, false, false⟩)
    | .ok _ =>
      let resp := query qEmb
      let context := build_context_from_query resp (some question) (some qEmb) sim
      (.ok (generate question context, context), ⟨true, true, true⟩)

/-! ## Helper lemmas -/

/-- The lowercase-hex alphabet `0-9a-f`, as code points. -/
def isHexLowerCode (c : Nat) : Prop := (48 ≤ c ∧ c ≤ 57) ∨ (97 ≤ c ∧ c ≤ 102)

theorem hexDigitCode_hex (n : Nat) : isHexLowerCode (hexDigitCode n) := by
  have h : n % 16 < 16 := Nat.mod_lt _ (by omega)
  unfold hexDigitCode isHexLowerCode
  split <;> omega

theorem sha256Bytes_length (msg : List Nat) : (sha256Bytes msg).length = 32 := by
  simp [sha256Bytes, wordBytes]

theorem sha256Hex_length (msg : List Nat) : (sha256Hex msg).length = 64 := by
  have h : ∀ l : List Nat, ((l.map byteHex).flatten).length = 2 * l.length := by
    intro l
    induction l with
    | nil => simp
    | cons a t ih => simp [byteHex] at *; omega
  unfold sha256Hex
  rw [h, sha256Bytes_length]

theorem sha256Hex_hex (msg : List Nat) : ∀ c ∈ sha256Hex msg, isHexLowerCode c := by
  intro c hc
  unfold sha256Hex at hc
  simp only [List.mem_flatten, List.mem_map] at hc
  obtain ⟨l, ⟨b, _, hb⟩, hcl⟩ := hc
  subst hb
  simp only [byteHex, List.mem_cons, List.not_mem_nil, or_false] at hcl
  rcases hcl with h | h <;> subst h <;> exact hexDigitCode_hex _

/-! ## C3: the record identifier -/

/-- C3: for every ASCII text of at most 512 code points, `safe_id` returns
the text unchanged; for every text containing a non-ASCII code point or
longer than 512, it returns the 64-character lowercase-hex SHA-256 digest
of the UTF-8 encoding; and it is deterministic. -/
theorem safe_id_spec :
    (∀ t : List Nat, (∀ c ∈ t, c < 128) → t.length ≤ 512 → safe_id t = t) ∧
    (∀ t : List Nat, ((¬ ∀ c ∈ t, c < 128) ∨ 512 < t.length) →
      safe_id t = sha256Hex (utf8Encode t) ∧ (safe_id t).length = 64 ∧
        ∀ c ∈ safe_id t, isHexLowerCode c) ∧
    (∀ t₁ t₂ : List Nat, t₁ = t₂ → safe_id t₁ = safe_id t₂) := by
  refine ⟨?_, ?_, ?_⟩
  · intro t hall hlen
    have hf : t.filter (fun c => decide (c < 128)) = t :=
      List.filter_eq_self.mpr (by intro a ha; simpa using hall a ha)
    unfold safe_id
    rw [hf, if_neg]
    rintro (h | h)
    · omega
    · exact h rfl
  · intro t hcase
    have hcond : 512 < (t.filter (fun c => decide (c < 128))).length ∨
        t.filter (fun c => decide (c < 128)) ≠ t := by
      rcases hcase with h | h
      · right
        intro heq
        exact h (by intro a ha; simpa using List.filter_eq_self.mp heq a ha)
      · by_cases heq : t.filter (fun c => decide (c < 128)) = t
        · left; rw [heq]; exact h
        · right; exact heq
    have hid : safe_id t = sha256Hex (utf8Encode t) := by
      unfold safe_id
      rw [if_pos hcond]
    exact ⟨hid, by rw [hid]; exact sha256Hex_length _, by rw [hid]; exact sha256Hex_hex _⟩
  · intro t₁ t₂ h
    rw [h]

/-- Witness for C3 at the concrete inputs `"hello"` (ASCII, short) and the
single non-ASCII code point 955 (λ). -/
theorem safe_id_spec_witness :
    safe_id (strCodes "hello") = strCodes "hello" ∧
    (safe_id [955] = sha256Hex (utf8Encode [955]) ∧ (safe_id [955]).length = 64 ∧
      ∀ c ∈ safe_id [955], isHexLowerCode c) :=
  ⟨safe_id_spec.1 (strCodes "hello") (by decide) (by decide),
   safe_id_spec.2.1 [955] (Or.inl (by decide))⟩

/-! ## C1: the query planner yields a single token, not independent fields -/

/-- C1 counterexample: on `"What did I do in October 2025?"` the planner
returns the single token `"October"`: the year is dropped, and a record
from October 2024 passes the resulting date filter, so no year field
`"2025"` is in effect. -/
theorem planner_not_independent_cex :
    extract_date_from_question (strCodes "What did I do in October 2025?")
      = some (strCodes "October") ∧
    build_context_from_query
      ⟨some [⟨none, some (strCodes "went hiking"), none,
             some (strCodes "October 03, 2024"), none, none⟩], none⟩
      (some (strCodes "What did I do in October 2025?")) none (fun _ _ => 0)
      = strCodes "[October 03, 2024] went hiking" := by
  constructor
  · decide
  · decide

/-- C1 amended: the planner extracts one token, not an independent pair: a
question containing a month name yields just that month (any year mention
is ignored), and `"summarize my week"` yields nothing. -/
theorem planner_single_token :
    extract_date_from_question (strCodes "What did I do in October 2025?")
      = some (strCodes "October") ∧
    extract_date_from_question (strCodes "summarize my week") = none ∧
    ∀ q m, findMonth q = some m → extract_date_from_question q = some m := by
  refine ⟨by decide, by decide, ?_⟩
  intro q m h
  simp [extract_date_from_question, h]

/-- Witness for C1 amended at `"maybe in May"`. -/
theorem planner_single_token_witness :
    findMonth (strCodes "maybe in May") = some (strCodes "May") ∧
    extract_date_from_question (strCodes "maybe in May") = some (strCodes "May") :=
  ⟨by decide, planner_single_token.2.2 _ _ (by decide)⟩

/-! ## C10: case-insensitive substring month matching -/

/-- C10: month detection is case-insensitive substring matching: `"maybe"`
yields `May`, `"marched"` yields `March`, and in general any question
whose lowercase form contains a month name as a substring gets a month
token (a capitalized month name that occurs as a substring) even though no
month is mentioned as a word. -/
theorem month_substring_matching :
    extract_date_from_question (strCodes "maybe tomorrow") = some (strCodes "May") ∧
    extract_date_from_question (strCodes "they marched home") = some (strCodes "March") ∧
    ∀ q m, m ∈ monthNames → hasSubstr (lowerStr q) (lowerStr m) = true →
      ∃ m2, extract_date_from_question q = some m2 ∧ m2 ∈ monthNames ∧
        hasSubstr (lowerStr q) (lowerStr m2) = true := by
  refine ⟨by decide, by decide, ?_⟩
  intro q m hm hsub
  have hs : (monthNames.find? (fun x => hasSubstr (lowerStr q) (lowerStr x))).isSome := by
    rw [List.find?_isSome]
    exact ⟨m, hm, hsub⟩
  obtain ⟨m2, hm2⟩ := Option.isSome_iff_exists.mp hs
  have hmem : m2 ∈ monthNames := List.mem_of_find?_eq_some hm2
  have hp : hasSubstr (lowerStr q) (lowerStr m2) = true :=
    List.find?_some (p := fun x => hasSubstr (lowerStr q) (lowerStr x)) hm2
  refine ⟨m2, ?_, hmem, hp⟩
  simp [extract_date_from_question, findMonth, hm2]

/-- Witness for C10 at `"marching"`. -/
theorem month_substring_matching_witness :
    ∃ m2, extract_date_from_question (strCodes "marching on") = some m2 ∧
      m2 ∈ monthNames ∧
      hasSubstr (lowerStr (strCodes "marching on")) (lowerStr m2) = true :=
  month_substring_matching.2.2 (strCodes "marching on") (strCodes "March")
    (by decide) (by decide)

/-! ## C2: `rag_answer` raises `TypeError`, but at the embedding call -/

/-- C2 counterexample: at a concrete question and collaborators, the
`TypeError` `rag_answer` raises is the unexpected-keyword error of the
`_openai_embeddings` call site, and `query_pinecone_by_vector` is never
invoked at all (its body is not reached), contrary to the claim that the
error arises from invoking it. -/
theorem rag_answer_cex :
    (rag_answer (strCodes "What did I do in October 2025?") 384
        (fun _ => [[1]]) (fun _ => ⟨some [], none⟩) (fun _ _ => []) (fun _ _ => 0)).1
      = .error (.unexpectedKeyword "model") ∧
    (rag_answer (strCodes "What did I do in October 2025?") 384
        (fun _ => [[1]]) (fun _ => ⟨some [], none⟩) (fun _ _ => []) (fun _ _ => 0)).2.queryBodyRun
      = false := by
  exact ⟨rfl, rfl⟩

/-- C2 amended: for every question and configuration `rag_answer` raises a
`TypeError` before the vector index is queried — but it arises at the
`_openai_embeddings` call, which passes an unexpected `model` keyword; the
later `query_pinecone_by_vector` call site (three positional arguments
binding to `vector`, `topK`, `pinecone_api_url` plus `topK` by keyword)
would raise the multiple-values `TypeError` if it were ever reached, so
the ask pipeline can never return an answer either way. -/
theorem rag_answer_type_error :
    (∀ (question : List Nat) (dim : Nat) embed query generate sim,
      rag_answer question dim embed query generate sim
        = (.error (.unexpectedKeyword "model"), ⟨false, false, false⟩)) ∧
    bindCall queryParams 3 ["topK"] = .error (.multipleValues "topK") := by
  exact ⟨fun _ _ _ _ _ _ => rfl, rfl⟩

/-! ## C5: the canonical text always carries the colon prefix -/

/-- C5 counterexample: a record with no timestamp gets canonical text
`": hello"` — a colon-space prefix — not the bare text `"hello"`. -/
theorem canonical_text_cex :
    canonicalText ⟨none, some (strCodes "hello")⟩ = strCodes ": hello" ∧
    canonicalText ⟨none, some (strCodes "hello")⟩ ≠ strCodes "hello" := by
  constructor
  · decide
  · decide

/-- C5 amended: the canonical text is always
`"<formatted-timestamp>: <text>"`; when the record has no timestamp the
formatted timestamp is empty, so the canonical text is `": <text>"` (the
colon-space separator remains), never the bare checkin text. -/
theorem canonical_text_shape :
    (∀ c : Checkin, c.timestamp = none → canonicalText c = strCodes ": " ++ textOf c) ∧
    (∀ (c : Checkin) (ts : List Nat), c.timestamp = some ts →
      canonicalText c = formatTimestamp ts ++ strCodes ": " ++ textOf c) ∧
    canonicalText ⟨some (strCodes "2025-10-01T09:00:00"),
                   some (strCodes "shipped checkins feature")⟩
      = strCodes "October 01, 2025: shipped checkins feature" := by
  refine ⟨?_, ?_, by decide⟩
  · intro c h
    unfold canonicalText tsOf
    rw [h]
    rfl
  · intro c ts h
    unfold canonicalText tsOf
    rw [h]
    rfl

/-- Witness for C5 amended: one record without and one with a timestamp. -/
theorem canonical_text_shape_witness :
    canonicalText ⟨none, some (strCodes "demo")⟩
        = strCodes ": " ++ textOf ⟨none, some (strCodes "demo")⟩ ∧
    canonicalText ⟨some (strCodes "garbage"), some (strCodes "demo")⟩
        = formatTimestamp (strCodes "garbage") ++ strCodes ": "
            ++ textOf ⟨some (strCodes "garbage"), some (strCodes "demo")⟩ :=
  ⟨canonical_text_shape.1 ⟨none, some (strCodes "demo")⟩ rfl,
   canonical_text_shape.2.1 ⟨some (strCodes "garbage"), some (strCodes "demo")⟩
     (strCodes "garbage") rfl⟩

/-! ## C6: display text never consults the stored `full` field -/

/-- C6 counterexample: a match whose metadata has both `full = "F"` and
`checkin = "C"` is displayed as `"C"`, not the stored canonical `"F"`. -/
theorem display_full_cex :
    build_context_from_query
      ⟨some [⟨none, some (strCodes "C"), none, none, some (strCodes "F"), none⟩], none⟩
      none none (fun _ _ => 0) = strCodes "C" ∧
    build_context_from_query
      ⟨some [⟨none, some (strCodes "C"), none, none, some (strCodes "F"), none⟩], none⟩
      none none (fun _ _ => 0) ≠ strCodes "F" := by
  constructor
  · decide
  · decide

/-- A Python-falsy optional string: absent or empty. -/
def pyFalsy (o : Option (List Nat)) : Prop := o = none ∨ o = some []

/-- C6 amended: the display text prefers the raw `checkin` metadata field,
falls back to the `text` metadata field, then to the record id; the stored
canonical `full` field is never consulted (changing it never changes the
display). -/
theorem display_fallback_chain :
    (∀ (h : RespMatch) (f : Option (List Nat)),
      displayOf { h with metaFull := f } = displayOf h) ∧
    (∀ (h : RespMatch) (s : List Nat), h.metaCheckin = some s → s ≠ [] →
      displayOf h = some s) ∧
    (∀ (h : RespMatch) (s : List Nat), pyFalsy h.metaCheckin →
      h.metaText = some s → s ≠ [] → displayOf h = some s) ∧
    (∀ h : RespMatch, pyFalsy h.metaCheckin → pyFalsy h.metaText →
      displayOf h = h.id) := by
  refine ⟨?_, ?_, ?_, ?_⟩
  · intro h f
    rfl
  · intro h s hs hne
    unfold displayOf pyOrStr
    rw [hs]
    simp [hne]
  · intro h s hck hs hne
    unfold displayOf pyOrStr
    rcases hck with h1 | h1 <;> rw [h1, hs] <;> simp [hne]
  · intro h hck htx
    unfold displayOf pyOrStr
    rcases hck with h1 | h1 <;> rcases htx with h2 | h2 <;> rw [h1, h2] <;> simp

/-- Witness for C6 amended: the `text` fallback fires on a match with an
absent `checkin` field, regardless of its `full` field. -/
theorem display_fallback_chain_witness :
    displayOf ⟨some (strCodes "I"), none, some (strCodes "T"), none,
               some (strCodes "F"), none⟩ = some (strCodes "T") :=
  display_fallback_chain.2.2.1
    ⟨some (strCodes "I"), none, some (strCodes "T"), none, some (strCodes "F"), none⟩
    (strCodes "T") (Or.inl rfl) rfl (by decide)

/-! ## C7: empty context, but the generator is never reached -/

/-- C7 counterexample: with collaborators under which retrieval would
return zero matches, `rag_answer` does not invoke the answer generator at
all (the pipeline dies at the embedding call's `TypeError`), contrary to
the claim that the generation call is still made; the zero-match context
itself is indeed empty. -/
theorem empty_context_cex :
    (rag_answer (strCodes "What did I do in March 1980?") 384
        (fun _ => [[1]]) (fun _ => ⟨some [], none⟩) (fun _ _ => []) (fun _ _ => 0)).2.generateBodyRun
      = false ∧
    build_context_from_query ⟨some [], none⟩
      (some (strCodes "What did I do in March 1980?")) (some [1]) (fun _ _ => 0) = [] := by
  constructor
  · rfl
  · decide

/-- C7 amended: when retrieval yields zero matches the assembled context is
the empty string, but the generation call is not reached: `rag_answer`
raises its `TypeError` beforehand, for every configuration. -/
theorem empty_context_generator :
    (∀ (resp : PineconeResp) (q : Option (List Nat)) (qe : Option (List ℚ))
        (sim : List ℚ → List ℚ → ℚ),
      (pyOrList resp.matchList resp.resultList).getD [] = [] →
        build_context_from_query resp q qe sim = []) ∧
    (∀ (question : List Nat) (dim : Nat) embed query generate sim,
      (rag_answer question dim embed query generate sim).2.generateBodyRun = false) := by
  constructor
  · intro resp q qe sim h
    simp [build_context_from_query, rerankedOf, h, sortDesc, joinSep]
  · intro question dim embed query generate sim
    rfl

/-- Witness for C7 amended at a response with an empty match list. -/
theorem empty_context_generator_witness :
    build_context_from_query ⟨some [], none⟩ (some (strCodes "anything")) none
      (fun _ _ => 0) = [] :=
  empty_context_generator.1 ⟨some [], none⟩ (some (strCodes "anything")) none
    (fun _ _ => 0) (by decide)

/-! ## C8: dimension mismatches are silently adjusted, not fatal -/

/-- C8: the query-embedding path of `rag_answer` silently truncates an
embedding longer than the configured dimension and passes a shorter one
through unchanged — no fatal error in either direction, the behavior the
spec itself flags as an open bug. -/
theorem dimension_mismatch_not_fatal :
    trimEmbedding [1, 2, 3, 4, 5] 3 = [1, 2, 3] ∧
    ([1, 2, 3, 4, 5] : List ℚ).length ≠ 3 ∧
    trimEmbedding [1, 2] 5 = [1, 2] ∧
    ([1, 2] : List ℚ).length ≠ 5 := by
  refine ⟨by decide, by decide, by decide, by decide⟩

/-! ## C4: sort order of the assembled context lines -/

theorem listLtCodes_asymm :
    ∀ a b : List Nat, listLtCodes a b = true → listLtCodes b a = false := by
  intro a
  induction a with
  | nil =>
    intro b h
    cases b with
    | nil => rfl
    | cons c t => rfl
  | cons x xs ih =>
    intro b h
    cases b with
    | nil => exact absurd h (by simp [listLtCodes])
    | cons y ys =>
      simp only [listLtCodes, Bool.or_eq_true, Bool.and_eq_true, decide_eq_true_eq,
        beq_iff_eq, Bool.or_eq_false_iff, Bool.and_eq_false_iff,
        decide_eq_false_iff_not, beq_eq_false_iff_ne, ne_eq] at h ⊢
      rcases h with h | ⟨he, hlt⟩
      · exact ⟨by omega, Or.inl (by omega)⟩
      · subst he
        exact ⟨by omega, Or.inr (ih ys hlt)⟩

theorem listLtCodes_conn :
    ∀ a b : List Nat, listLtCodes a b = false → listLtCodes b a = false → a = b := by
  intro a
  induction a with
  | nil =>
    intro b h1 h2
    cases b with
    | nil => rfl
    | cons c t => exact absurd h1 (by simp [listLtCodes])
  | cons x xs ih =>
    intro b h1 h2
    cases b with
    | nil => exact absurd h2 (by simp [listLtCodes])
    | cons y ys =>
      simp only [listLtCodes, Bool.or_eq_false_iff, Bool.and_eq_false_iff,
        decide_eq_false_iff_not, beq_eq_false_iff_ne, ne_eq] at h1 h2
      have hxy : x = y := by omega
      subst hxy
      rcases h1.2 with h | h
      · exact absurd rfl h
      · rcases h2.2 with h2a | h2a
        · exact absurd rfl h2a
        · rw [ih ys h h2a]

theorem listLtCodes_trans :
    ∀ a b c : List Nat, listLtCodes a b = true → listLtCodes b c = true →
      listLtCodes a c = true := by
  intro a
  induction a with
  | nil =>
    intro b c h1 h2
    cases b with
    | nil => exact absurd h1 (by simp [listLtCodes])
    | cons y ys =>
      cases c with
      | nil => exact absurd h2 (by simp [listLtCodes])
      | cons z zs => rfl
  | cons x xs ih =>
    intro b c h1 h2
    cases b with
    | nil => exact absurd h1 (by simp [listLtCodes])
    | cons y ys =>
      cases c with
      | nil => exact absurd h2 (by simp [listLtCodes])
      | cons z zs =>
        simp only [listLtCodes, Bool.or_eq_true, Bool.and_eq_true, decide_eq_true_eq,
          beq_iff_eq] at h1 h2 ⊢
        rcases h1 with h1 | ⟨he1, hl1⟩
        · rcases h2 with h2 | ⟨he2, hl2⟩
          · exact Or.inl (by omega)
          · exact Or.inl (by omega)
        · rcases h2 with h2 | ⟨he2, hl2⟩
          · exact Or.inl (by omega)
          · exact Or.inr ⟨by omega, ih _ _ hl1 hl2⟩

theorem pairLt_asymm (x y : ℚ × List Nat) :
    pairLt x y = true → pairLt y x = false := by
  intro h
  simp only [pairLt, Bool.or_eq_true, Bool.and_eq_true, decide_eq_true_eq] at h
  simp only [pairLt, Bool.or_eq_false_iff, Bool.and_eq_false_iff,
    decide_eq_false_iff_not]
  rcases h with h | ⟨he, hl⟩
  · refine ⟨by linarith, Or.inl ?_⟩
    intro he
    rw [he] at h
    exact lt_irrefl _ h
  · exact ⟨by rw [he]; exact lt_irrefl _, Or.inr (listLtCodes_asymm _ _ hl)⟩

theorem pairLt_cotrans (x y z : ℚ × List Nat) :
    pairLt x z = true → pairLt x y = true ∨ pairLt y z = true := by
  intro h
  simp only [pairLt, Bool.or_eq_true, Bool.and_eq_true, decide_eq_true_eq] at h ⊢
  rcases h with h | ⟨he, hl⟩
  · rcases lt_trichotomy x.1 y.1 with hc | hc | hc
    · exact Or.inl (Or.inl hc)
    · exact Or.inr (Or.inl (by rw [← hc]; exact h))
    · exact Or.inr (Or.inl (lt_trans hc h))
  · rcases lt_trichotomy x.1 y.1 with hc | hc | hc
    · exact Or.inl (Or.inl hc)
    · by_cases hxy : listLtCodes x.2 y.2 = true
      · exact Or.inl (Or.inr ⟨hc, hxy⟩)
      · by_cases hyx : listLtCodes y.2 x.2 = true
        · exact Or.inr (Or.inr ⟨by rw [← hc, he], listLtCodes_trans _ _ _ hyx hl⟩)
        · have : x.2 = y.2 :=
            listLtCodes_conn _ _ (Bool.eq_false_iff.mpr hxy) (Bool.eq_false_iff.mpr hyx)
          exact Or.inr (Or.inr ⟨by rw [← hc, he], by rw [← this]; exact hl⟩)
    · exact Or.inr (Or.inl (by rw [← he]; exact hc))

/-- Transitivity of the descending tuple order `¬(· < ·)`. -/
theorem pairGe_trans (x y z : ℚ × List Nat) :
    pairLt x y = false → pairLt y z = false → pairLt x z = false := by
  intro h1 h2
  by_contra h
  have h' : pairLt x z = true := by
    cases hxz : pairLt x z with
    | false => exact absurd hxz h
    | true => rfl
  rcases pairLt_cotrans x y z h' with hc | hc
  · rw [h1] at hc
    exact Bool.false_ne_true hc
  · rw [h2] at hc
    exact Bool.false_ne_true hc

theorem mem_insertDesc {z x : ℚ × List Nat} :
    ∀ l : List (ℚ × List Nat), z ∈ insertDesc x l → z = x ∨ z ∈ l := by
  intro l
  induction l with
  | nil =>
    intro h
    simp only [insertDesc, List.mem_singleton] at h
    exact Or.inl h
  | cons y ys ih =>
    intro h
    simp only [insertDesc] at h
    split at h
    · rcases List.mem_cons.mp h with h | h
      · exact Or.inr (List.mem_cons.mpr (Or.inl h))
      · rcases ih h with h | h
        · exact Or.inl h
        · exact Or.inr (List.mem_cons.mpr (Or.inr h))
    · rcases List.mem_cons.mp h with h | h
      · exact Or.inl h
      · exact Or.inr h

theorem insertDesc_sorted (x : ℚ × List Nat) :
    ∀ l : List (ℚ × List Nat),
      List.Pairwise (fun a b => pairLt a b = false) l →
      List.Pairwise (fun a b => pairLt a b = false) (insertDesc x l) := by
  intro l
  induction l with
  | nil =>
    intro _
    simp [insertDesc]
  | cons y ys ih =>
    intro h
    rw [List.pairwise_cons] at h
    simp only [insertDesc]
    split
    · rename_i hlt
      rw [List.pairwise_cons]
      refine ⟨?_, ih h.2⟩
      intro z hz
      rcases mem_insertDesc ys hz with hzx | hzy
      · rw [hzx]
        exact pairLt_asymm _ _ hlt
      · exact h.1 z hzy
    · rename_i hge
      rw [List.pairwise_cons]
      refine ⟨?_, List.pairwise_cons.mpr h⟩
      intro z hz
      rcases List.mem_cons.mp hz with hzy | hzys
      · rw [hzy]
        exact Bool.eq_false_iff.mpr hge
      · exact pairGe_trans x y z (Bool.eq_false_iff.mpr hge) (h.1 z hzys)

theorem sortDesc_sorted :
    ∀ l : List (ℚ × List Nat),
      List.Pairwise (fun a b => pairLt a b = false) (sortDesc l) := by
  intro l
  induction l with
  | nil => simp [sortDesc]
  | cons x xs ih => exact insertDesc_sorted x _ ih

/-- C4 counterexample: two matches with equal (zero) scores and lines
`"a"`, `"b"` in that input order are emitted as `"b"` then `"a"` — ties
are not kept in original input order. -/
theorem context_order_cex :
    build_context_from_query
      ⟨some [⟨none, some (strCodes "a"), none, none, none, none⟩,
             ⟨none, some (strCodes "b"), none, none, none, none⟩], none⟩
      none none (fun _ _ => 0) = strCodes "b\n---\na" ∧
    build_context_from_query
      ⟨some [⟨none, some (strCodes "a"), none, none, none, none⟩,
             ⟨none, some (strCodes "b"), none, none, none, none⟩], none⟩
      none none (fun _ _ => 0) ≠ strCodes "a\n---\nb" := by
  constructor
  · decide
  · decide

/-- The rational 1/5, written in lowest terms so the kernel can evaluate
comparisons on it. -/
def ratFifth : ℚ := ⟨1, 5, by decide, Nat.coprime_one_left 5⟩

/-- The rational 9/10 in lowest terms. -/
def ratNineTenths : ℚ := ⟨9, 10, by decide, by norm_num [Nat.Coprime]⟩

/-- The rational 1/2 in lowest terms. -/
def ratHalf : ℚ := ⟨1, 2, by decide, Nat.coprime_one_left 2⟩

/-- C4 amended: the assembler emits lines sorted by the `(score, line)`
tuple in descending order — scores descending, with equal-score ties
broken by the line text in descending code-point order, not by original
input position; with the scores `0.2, 0.9, 0.5` the lines come out in
score order `0.9, 0.5, 0.2`. -/
theorem context_sorted_desc :
    (∀ (resp : PineconeResp) (q : Option (List Nat)) (qe : Option (List ℚ))
        (sim : List ℚ → List ℚ → ℚ),
      List.Pairwise (fun a b => pairLt a b = false) (rerankedOf resp q qe sim)) ∧
    build_context_from_query
      ⟨some [⟨none, some (strCodes "low"), none, none, none, some [1]⟩,
             ⟨none, some (strCodes "hi"), none, none, none, some [2]⟩,
             ⟨none, some (strCodes "mid"), none, none, none, some [3]⟩], none⟩
      none (some [0])
      (fun _ e => if e = [(1 : ℚ)] then ratFifth else if e = [(2 : ℚ)] then ratNineTenths
                  else ratHalf)
      = strCodes "hi\n---\nmid\n---\nlow" := by
  constructor
  · intro resp q qe sim
    exact sortDesc_sorted _
  · decide

/-! ## C9: ingestion is idempotent by identifier -/

/-- The stored identifiers, in store order. -/
def idsOf (s : List IndexEntry) : List (List Nat) := s.map fun x => x.id

/-- The last entry written to a given id by a write sequence. -/
def lastWrite : List IndexEntry → List Nat → Option IndexEntry
  | [], _ => none
  | e :: es, i =>
    match lastWrite es i with
    | some w => some w
    | none => if e.id = i then some e else none

/-- The value a write sequence leaves at a stored entry's id, or the entry
itself when the sequence never writes that id. -/
def overrideBy (es : List IndexEntry) (x : IndexEntry) : IndexEntry :=
  match lastWrite es x.id with
  | some w => w
  | none => x

theorem overwriteWith_id (e x : IndexEntry) : (overwriteWith e x).id = x.id := by
  unfold overwriteWith
  split
  · rename_i h
    exact h.symm
  · rfl

theorem lastWrite_cons (e : IndexEntry) (es : List IndexEntry) (i : List Nat) :
    lastWrite (e :: es) i =
      match lastWrite es i with
      | some w => some w
      | none => if e.id = i then some e else none := rfl

theorem anyId_eq (s : List IndexEntry) (e : IndexEntry) :
    (s.any fun x => decide (x.id = e.id)) = true ↔ e.id ∈ idsOf s := by
  rw [List.any_eq_true]
  unfold idsOf
  rw [List.mem_map]
  constructor
  · rintro ⟨x, hx, hdx⟩
    exact ⟨x, hx, by simpa using hdx⟩
  · rintro ⟨x, hx, hdx⟩
    exact ⟨x, hx, by simp [hdx]⟩

theorem idsOf_map_overwrite (s : List IndexEntry) (e : IndexEntry) :
    idsOf (s.map (overwriteWith e)) = idsOf s := by
  unfold idsOf
  rw [List.map_map]
  exact congrArg (fun f => s.map f) (funext fun x => overwriteWith_id e x)

theorem mem_ids_upsertOne_self (s : List IndexEntry) (e : IndexEntry) :
    e.id ∈ idsOf (upsertOne s e) := by
  unfold upsertOne
  split
  · rename_i hany
    rw [idsOf_map_overwrite]
    exact (anyId_eq s e).mp hany
  · simp [idsOf]

theorem mem_ids_upsertOne_mono (s : List IndexEntry) (e : IndexEntry) (i : List Nat)
    (h : i ∈ idsOf s) : i ∈ idsOf (upsertOne s e) := by
  unfold upsertOne
  split
  · rw [idsOf_map_overwrite]
    exact h
  · unfold idsOf at h ⊢
    simp only [List.map_append, List.mem_append]
    exact Or.inl h

theorem ids_applyAll_mono :
    ∀ (es : List IndexEntry) (s : List IndexEntry) (i : List Nat),
      i ∈ idsOf s → i ∈ idsOf (applyAll s es) := by
  intro es
  induction es with
  | nil => intro s i h; exact h
  | cons e es ih =>
    intro s i h
    exact ih (upsertOne s e) i (mem_ids_upsertOne_mono s e i h)

theorem ids_applyAll_present :
    ∀ (es : List IndexEntry) (s : List IndexEntry) (e : IndexEntry),
      e ∈ es → e.id ∈ idsOf (applyAll s es) := by
  intro es
  induction es with
  | nil => intro s e h; exact absurd h (List.not_mem_nil e)
  | cons a es ih =>
    intro s e h
    rcases List.mem_cons.mp h with h | h
    · subst h
      exact ids_applyAll_mono es (upsertOne s e) e.id (mem_ids_upsertOne_self s e)
    · exact ih (upsertOne s a) e h

theorem overrideBy_overwrite (e : IndexEntry) (es : List IndexEntry) (x : IndexEntry) :
    overrideBy es (overwriteWith e x) = overrideBy (e :: es) x := by
  by_cases h : x.id = e.id
  · have hx : overwriteWith e x = e := by
      unfold overwriteWith
      exact if_pos h
    rw [hx]
    unfold overrideBy
    rw [lastWrite_cons, ← h]
    cases hlw : lastWrite es x.id with
    | some w => simp [hlw]
    | none => simp [hlw]
  · have hx : overwriteWith e x = x := by
      unfold overwriteWith
      exact if_neg h
    rw [hx]
    unfold overrideBy
    rw [lastWrite_cons]
    cases hlw : lastWrite es x.id with
    | some w => simp [hlw]
    | none =>
      have hne : ¬ e.id = x.id := fun he => h he.symm
      simp [hlw, hne]

theorem map_eq_self_of {α : Type} (l : List α) (f : α → α)
    (h : ∀ x ∈ l, f x = x) : l.map f = l := by
  induction l with
  | nil => rfl
  | cons a t ih =>
    simp only [List.map_cons, h a (List.mem_cons_self a t)]
    rw [ih fun x hx => h x (List.mem_cons_of_mem a hx)]

theorem applyAll_map_override :
    ∀ (es : List IndexEntry) (s : List IndexEntry),
      (∀ e ∈ es, e.id ∈ idsOf s) → applyAll s es = s.map (overrideBy es) := by
  intro es
  induction es with
  | nil =>
    intro s _
    have h : ∀ x ∈ s, overrideBy [] x = x := by
      intro x _
      rfl
    rw [applyAll]
    simp only [List.foldl_nil]
    exact (map_eq_self_of s _ h).symm
  | cons e es ih =>
    intro s hpres
    have hup : upsertOne s e = s.map (overwriteWith e) := by
      unfold upsertOne
      rw [if_pos ((anyId_eq s e).mpr (hpres e (List.mem_cons_self e es)))]
    have hids : ∀ e2 ∈ es, e2.id ∈ idsOf (s.map (overwriteWith e)) := by
      intro e2 h2
      rw [idsOf_map_overwrite]
      exact hpres e2 (List.mem_cons_of_mem e h2)
    calc applyAll s (e :: es) = applyAll (upsertOne s e) es := rfl
      _ = applyAll (s.map (overwriteWith e)) es := by rw [hup]
      _ = (s.map (overwriteWith e)).map (overrideBy es) := ih _ hids
      _ = s.map (overrideBy es ∘ overwriteWith e) := by rw [List.map_map]
      _ = s.map (overrideBy (e :: es)) := by
            exact congrArg (fun f => s.map f)
              (funext fun x => overrideBy_overwrite e es x)

theorem mem_upsertOne_cases (s : List IndexEntry) (e x : IndexEntry)
    (h : x ∈ upsertOne s e) : x = e ∨ (x ∈ s ∧ x.id ≠ e.id) := by
  unfold upsertOne at h
  split at h
  · rename_i hany
    obtain ⟨y, hy, hyx⟩ := List.mem_map.mp h
    unfold overwriteWith at hyx
    by_cases hid : y.id = e.id
    · rw [if_pos hid] at hyx
      exact Or.inl hyx.symm
    · rw [if_neg hid] at hyx
      subst hyx
      exact Or.inr ⟨hy, hid⟩
  · rename_i hany
    rcases List.mem_append.mp h with h | h
    · refine Or.inr ⟨h, ?_⟩
      intro hid
      apply hany
      rw [List.any_eq_true]
      exact ⟨x, h, by simp [hid]⟩
    · exact Or.inl (List.mem_singleton.mp h)

theorem lastWrite_applyAll_val :
    ∀ (es : List IndexEntry) (s : List IndexEntry) (x : IndexEntry),
      x ∈ applyAll s es →
      lastWrite es x.id = some x ∨ (lastWrite es x.id = none ∧ x ∈ s) := by
  intro es
  induction es with
  | nil =>
    intro s x h
    exact Or.inr ⟨rfl, h⟩
  | cons e es ih =>
    intro s x h
    rcases ih (upsertOne s e) x h with hw | ⟨hnone, hmem⟩
    · left
      rw [lastWrite_cons, hw]
    · rcases mem_upsertOne_cases s e x hmem with hx | ⟨hxs, hxid⟩
      · subst hx
        left
        rw [lastWrite_cons, hnone]
        simp
      · right
        refine ⟨?_, hxs⟩
        rw [lastWrite_cons, hnone]
        have hne : ¬ e.id = x.id := fun he => hxid he.symm
        simp [hne]

/-- Replaying an identical write sequence on the store it produced leaves
the store unchanged. -/
theorem applyAll_replay (es : List IndexEntry) :
    applyAll (applyAll [] es) es = applyAll [] es := by
  have hpres : ∀ e ∈ es, e.id ∈ idsOf (applyAll [] es) :=
    fun e he => ids_applyAll_present es [] e he
  rw [applyAll_map_override es _ hpres]
  apply map_eq_self_of
  intro x hx
  rcases lastWrite_applyAll_val es [] x hx with h | ⟨_, hmem⟩
  · unfold overrideBy
    rw [h]
  · exact absurd hmem (List.not_mem_nil x)

theorem chunkList_flatten_aux {α : Type} (bs : Nat) (hbs : 0 < bs) :
    ∀ (n : Nat) (l : List α), l.length ≤ n → (chunkList bs l).flatten = l := by
  intro n
  induction n with
  | zero =>
    intro l hl
    have : l = [] := List.length_eq_zero.mp (by omega)
    subst this
    rw [chunkList]
    simp
  | succ n ih =>
    intro l hl
    rw [chunkList]
    cases l with
    | nil => simp
    | cons a t =>
      have hcond : (bs == 0 || (a :: t).isEmpty) = false := by
        simp
        omega
      rw [hcond]
      simp only [Bool.false_eq_true, if_false, List.flatten_cons]
      have hl2 : t.length + 1 ≤ n + 1 := by simpa using hl
      rw [ih ((a :: t).drop bs)
        (by simp only [List.length_drop, List.length_cons]; omega)]
      exact List.take_append_drop bs (a :: t)

theorem chunkList_sum_aux {α : Type} (bs : Nat) (hbs : 0 < bs) :
    ∀ (n : Nat) (l : List α), l.length ≤ n →
      ((chunkList bs l).map List.length).sum = l.length := by
  intro n
  induction n with
  | zero =>
    intro l hl
    have : l = [] := List.length_eq_zero.mp (by omega)
    subst this
    rw [chunkList]
    simp
  | succ n ih =>
    intro l hl
    rw [chunkList]
    cases l with
    | nil => simp
    | cons a t =>
      have hcond : (bs == 0 || (a :: t).isEmpty) = false := by
        simp
        omega
      rw [hcond]
      simp only [Bool.false_eq_true, if_false, List.map_cons, List.sum_cons]
      have hl2 : t.length + 1 ≤ n + 1 := by simpa using hl
      rw [ih ((a :: t).drop bs)
        (by simp only [List.length_drop, List.length_cons]; omega)]
      simp only [List.length_take, List.length_drop, List.length_cons]
      omega

theorem runChunks_eq :
    ∀ (cs : List (List IndexEntry)) (s : List IndexEntry) (t : Nat),
      runChunks s t cs = (applyAll s cs.flatten, t + (cs.map List.length).sum) := by
  intro cs
  induction cs with
  | nil =>
    intro s t
    simp [runChunks, applyAll]
  | cons b cs ih =>
    intro s t
    rw [runChunks, ih]
    simp only [List.flatten_cons, List.map_cons, List.sum_cons, applyAll,
      List.foldl_append]
    have h2 : t + b.length + (List.map List.length cs).sum
        = t + (b.length + (List.map List.length cs).sum) := by omega
    rw [h2]

/-- C9: with every embedding and upsert succeeding (the embedder returns
one vector per record), ingesting the same non-empty record set twice
yields exactly the same store as one ingestion — in particular the same
stored identifiers and vector count — and the `upserted` count of each run
equals the number of records processed. -/
theorem ingest_idempotent :
    ∀ (embed : List (List Nat) → List (List ℚ)) (checkins : List Checkin) (bs : Nat),
      checkins ≠ [] → 0 < bs →
      (embed (checkins.map textOf)).length = checkins.length →
      (upsert_checkins_to_pinecone_http embed checkins bs
          (upsert_checkins_to_pinecone_http embed checkins bs []).1).1
        = (upsert_checkins_to_pinecone_http embed checkins bs []).1 ∧
      (upsert_checkins_to_pinecone_http embed checkins bs []).2 = checkins.length ∧
      (upsert_checkins_to_pinecone_http embed checkins bs
          (upsert_checkins_to_pinecone_http embed checkins bs []).1).2
        = checkins.length := by
  intro embed checkins bs hne hbs hlen
  have hE : (ingestEntries embed checkins).length = checkins.length := by
    simp [ingestEntries, List.length_zip, hlen]
  have hempty : checkins.isEmpty = false := by
    cases checkins with
    | nil => exact absurd rfl hne
    | cons a t => rfl
  have hflat : (chunkList bs (ingestEntries embed checkins)).flatten
      = ingestEntries embed checkins :=
    chunkList_flatten_aux bs hbs _ _ le_rfl
  have hsum : ((chunkList bs (ingestEntries embed checkins)).map List.length).sum
      = checkins.length := by
    rw [chunkList_sum_aux bs hbs _ _ le_rfl]
    exact hE
  unfold upsert_checkins_to_pinecone_http
  rw [hempty]
  simp only [Bool.false_eq_true, if_false]
  rw [runChunks_eq, runChunks_eq]
  refine ⟨?_, ?_, ?_⟩
  · rw [hflat]
    exact applyAll_replay _
  · show 0 + ((chunkList bs (ingestEntries embed checkins)).map List.length).sum
      = checkins.length
    rw [Nat.zero_add, hsum]
  · show 0 + ((chunkList bs (ingestEntries embed checkins)).map List.length).sum
      = checkins.length
    rw [Nat.zero_add, hsum]

/-- Witness for C9 at a one-record batch with a constant embedder. -/
theorem ingest_idempotent_witness :
    (upsert_checkins_to_pinecone_http (fun ts => ts.map fun _ => [(0 : ℚ)])
        [⟨none, some (strCodes "demo")⟩] 50
        (upsert_checkins_to_pinecone_http (fun ts => ts.map fun _ => [(0 : ℚ)])
          [⟨none, some (strCodes "demo")⟩] 50 []).1).1
      = (upsert_checkins_to_pinecone_http (fun ts => ts.map fun _ => [(0 : ℚ)])
          [⟨none, some (strCodes "demo")⟩] 50 []).1 ∧
    (upsert_checkins_to_pinecone_http (fun ts => ts.map fun _ => [(0 : ℚ)])
        [⟨none, some (strCodes "demo")⟩] 50 []).2
      = ([⟨none, some (strCodes "demo")⟩] : List Checkin).length ∧
    (upsert_checkins_to_pinecone_http (fun ts => ts.map fun _ => [(0 : ℚ)])
        [⟨none, some (strCodes "demo")⟩] 50
        (upsert_checkins_to_pinecone_http (fun ts => ts.map fun _ => [(0 : ℚ)])
          [⟨none, some (strCodes "demo")⟩] 50 []).1).2
      = ([⟨none, some (strCodes "demo")⟩] : List Checkin).length :=
  ingest_idempotent (fun ts => ts.map fun _ => [(0 : ℚ)])
    [⟨none, some (strCodes "demo")⟩] 50 (by decide) (by decide) (by decide)

end CheckinRag
